import Mathlib

/-!
Verification of the MNIST model-construction module
(mnist/distributed/trainer/model.py).

The module wires a 3-layer fully-connected classifier into a generic
distributed-training harness.  We embed its computational core
(parsing, inference, loss, evaluation, formatting, argument handling)
as executable Lean functions over exact arithmetic (rational numbers,
with real numbers where logarithms and exponentials are needed), and
the graph-construction methods as builders of a symbolic operation
tree, so that claims about which graph nodes and endpoints are created
can be stated and proved.
-/

set_option maxRecDepth 4000

/-! ## Hyper-parameter constants (module-level constants of model.py) -/

def HIDDEN1 : ℕ := 128

def HIDDEN2 : ℕ := 32

def NUM_CLASSES : ℕ := 10

def IMAGE_SIZE : ℕ := 28

def IMAGE_PIXELS : ℕ := IMAGE_SIZE * IMAGE_SIZE

/-! ## The Model configuration entity -/

structure Model where
  learning_rate : ℚ
  hidden1 : ℕ
  hidden2 : ℕ
deriving DecidableEq

/-! ## Inference (forward pass)

`inference` chains three `layers.fully_connected` calls.  A dense layer
is an affine transform followed by an activation; the TensorFlow
default activation of `layers.fully_connected` (used by all three
calls in the source, which passes no `activation_fn`) is `tf.nn.relu`.
Weights and biases are the trainable parameters of a layer; we keep
one weight row per output unit.
-/

def relu (x : ℚ) : ℚ := if x ≤ 0 then 0 else x

def dotprod (xs ys : List ℚ) : ℚ := (List.zipWith (fun a b => a * b) xs ys).sum

structure DenseParams where
  weights : List (List ℚ)
  biases : List ℚ
deriving DecidableEq

/-- The affine part of a dense layer: one output per weight row. -/
def affine (p : DenseParams) (x : List ℚ) : List ℚ :=
  List.zipWith (fun w b => dotprod x w + b) p.weights p.biases

/-- `layers.fully_connected`: affine transform, then activation. -/
def fully_connected (act : ℚ → ℚ) (p : DenseParams) (x : List ℚ) : List ℚ :=
  (affine p x).map act

/-- `inference(images, hidden1_units, hidden2_units)` from model.py:
three chained `layers.fully_connected` calls, each with the framework
default activation (ReLU) — including the final NUM_CLASSES-wide
output layer, since the source does not pass `activation_fn=None`. -/
def inference (p1 p2 p3 : DenseParams) (images : List (List ℚ)) : List (List ℚ) :=
  images.map (fun img =>
    fully_connected relu p3 (fully_connected relu p2 (fully_connected relu p1 img)))

/-! ## Evaluation metric

`evaluation(logits, labels)` computes `tf.nn.in_top_k(logits, labels, 1)`
per example (true when no class has a strictly larger logit than the
true label, i.e. the label attains the maximum), casts to float and
takes `reduce_mean`.
-/

def in_top_1 (row : List ℚ) (label : ℕ) : Bool :=
  decide (label < row.length) && row.all (fun x => decide (x ≤ row.getD label 0))

def evaluation (logits : List (List ℚ)) (labels : List ℕ) : ℚ :=
  let correct := List.zipWith (fun row l => if in_top_1 row l then (1 : ℚ) else 0) logits labels
  correct.sum / (correct.length : ℚ)

/-- The true-label logit is the unique maximum of the row. -/
def UniqueMax (row : List ℚ) (l : ℕ) : Prop :=
  l < row.length ∧ ∀ j, j < row.length → j ≠ l → row.getD j 0 < row.getD l 0

/-- The true-label logit is not a maximum of the row: some other entry
is strictly larger. -/
def NotMax (row : List ℚ) (l : ℕ) : Prop :=
  ∃ j, j < row.length ∧ row.getD l 0 < row.getD j 0

/-! ## Loss

`loss(logits, labels)` casts labels with `tf.to_int64`, applies
`tf.nn.sparse_softmax_cross_entropy_with_logits` per example
(the negative logarithm of the softmax probability of the true class,
i.e. `log (sum of exponentials) - logit of the true class`) and takes
`reduce_mean`.  Exponentials and logarithms force the real numbers
here.
-/

def to_int64 (n : ℤ) : ℤ := (n + 2 ^ 63) % 2 ^ 64 - 2 ^ 63

noncomputable def softmaxDenom (row : List ℝ) : ℝ := (row.map Real.exp).sum

noncomputable def softmaxProb (row : List ℝ) (l : ℕ) : ℝ :=
  Real.exp (row.getD l 0) / softmaxDenom row

/-- Per-example sparse softmax cross-entropy with logits. -/
noncomputable def xent (row : List ℝ) (l : ℕ) : ℝ :=
  Real.log (softmaxDenom row) - row.getD l 0

noncomputable def loss (logits : List (List ℝ)) (labels : List ℤ) : ℝ :=
  let ce := List.zipWith (fun row l => xent row (to_int64 l).toNat) logits labels
  ce.sum / (ce.length : ℝ)

/-! ## Example parsing

`parse_examples` deserializes a batch of records through
`tf.parse_example` with a fixed feature map: `images` is a required
784-float fixed-length feature, `labels` an int64 scalar defaulting to
-1 when absent.  A record with a missing image field or a wrong-length
image vector is a parse failure.
-/

structure RawExample where
  images : Option (List ℚ)
  labels : Option ℤ
deriving DecidableEq

def parse_one (e : RawExample) : Option (List ℚ × ℤ) :=
  match e.images with
  | none => none
  | some img => if img.length = IMAGE_PIXELS then some (img, e.labels.getD (-1)) else none

def parse_batch : List RawExample → Option (List (List ℚ × ℤ))
  | [] => some []
  | e :: es =>
    match parse_one e, parse_batch es with
    | some p, some ps => some (p :: ps)
    | _, _ => none

def parse_examples (es : List RawExample) : Option (List (List ℚ) × List ℤ) :=
  (parse_batch es).map (fun ps => (ps.map Prod.fst, ps.map Prod.snd))

/-! ## Model factory and argument handling

Modelled from the spec: `util.override_if_not_in_args` (file util.py,
imported by model.py but not part of this source tree) injects a flag
with its default value into the argument list only when the flag key
is not already present (in either the separated `--flag value` form or
the `--flag=value` form); caller-supplied values always win.
Likewise the `argparse` collaborator: `create_model` registers a
single float option `--learning_rate` with default 0.01 and
`parse_known_args` extracts its (last) value, returning every
unrecognized argument as the residual list.
-/

def matchKey (flag a : String) : Bool :=
  a == flag || List.isPrefixOf (flag ++ "=").data a.data

def keyPresent (flag : String) (args : List String) : Bool :=
  args.any (matchKey flag)

def override_if_not_in_args (flag value : String) (args : List String) : List String :=
  if keyPresent flag args then args else args ++ [flag, value]

/-- Decimal literal of the shape `digits` or `digits.digits`, as an
exact rational. -/
def parseDecimal (s : String) : Option ℚ :=
  match s.splitOn "." with
  | [a] => a.toNat?.map (fun n => (n : ℚ))
  | [a, b] =>
    match a.toNat?, b.toNat? with
    | some x, some y => some ((x : ℚ) + (y : ℚ) / (10 : ℚ) ^ b.length)
    | _, _ => none
  | _ => none

/-- Modelled from the spec: `argparse.parse_known_args` for the single
registered option `--learning_rate` — recognized occurrences are
removed (last value wins), everything else is returned in order as the
residual; a missing or non-numeric option value aborts (`none`). -/
def parse_known_args : List String → Option (Option ℚ × List String)
  | [] => some (none, [])
  | a :: rest =>
    if a = "--learning_rate" then
      match rest with
      | [] => none
      | v :: rest2 =>
        match parseDecimal v, parse_known_args rest2 with
        | some q, some (later, res) => some (some (later.getD q), res)
        | _, _ => none
    else if List.isPrefixOf "--learning_rate=".data a.data then
      match parseDecimal (a.drop "--learning_rate=".length), parse_known_args rest with
      | some q, some (later, res) => some (some (later.getD q), res)
      | _, _ => none
    else
      match parse_known_args rest with
      | some (later, res) => some (later, a :: res)
      | none => none

/-- The six harness-level defaults injected by `create_model`, in
source order. -/
def default_args : List (String × String) :=
  [("--max_steps", "5000"), ("--batch_size", "100"), ("--eval_set_size", "10000"),
   ("--eval_interval_secs", "1"), ("--log_interval_secs", "1"),
   ("--min_train_eval_rate", "1")]

def apply_default_args (args : List String) : List String :=
  default_args.foldl (fun acc fv => override_if_not_in_args fv.1 fv.2 acc) args

def create_model (argv : List String) : Option (Model × List String) :=
  match parse_known_args argv with
  | none => none
  | some (lrOpt, task_args) =>
    some (⟨lrOpt.getD (1 / 100), HIDDEN1, HIDDEN2⟩, apply_default_args task_args)

/-! ## Training-step runtime semantics

Modelled from the spec: the op built by
`tf.train.GradientDescentOptimizer(learning_rate).minimize(loss, global_step)`
(optimizer internals live in the external framework, not in this
source tree) applies the gradients scaled by the learning rate to the
trainable parameters and, as part of the same update, increments the
global step counter by one — once per invocation, whatever the loss or
the gradients (including all-zero gradients).  The counter variable is
created by `training` as `tf.Variable(0)`.
-/

structure TrainState where
  params : List ℚ
  step : ℕ
deriving DecidableEq

def global_step_init : ℕ := 0

def run_train_op (lr : ℚ) (grad : List ℚ → List ℚ) (s : TrainState) : TrainState :=
  ⟨List.zipWith (fun p g => p - lr * g) s.params (grad s.params), s.step + 1⟩

/-! ## Symbolic graph construction

The graph-building methods of `Model` only declare operations; we
mirror them with a symbolic operation tree whose constructors record
exactly the parameters the source passes to each collaborator.
`readExamplesBatch` stands for the batch tensor returned by
`util.read_examples` (external input-reading collaborator);
`variableInt` for `tf.Variable(init, name, trainable)`; `minimizeOp`
for the op built by `optimizer.minimize(loss, global_step)`;
`streamingMeanValue` and `streamingMeanUpdate` for the two results of
`metric_ops.streaming_mean`; `placeholderStrings` for the
`tf.placeholder(tf.string, shape=(None,))` of the prediction graph.
-/

inductive TExpr where
  | readExamplesBatch (data_paths : List String) (batch_size : ℕ)
      (shuffle : Bool) (num_epochs : Option ℕ)
  | parsedField (examples : TExpr) (field : String)
  | inferenceOp (images : TExpr) (hidden1 hidden2 : ℕ)
  | lossOp (logits labels : TExpr)
  | evaluationOp (logits labels : TExpr)
  | variableInt (init : ℤ) (name : String) (trainable : Bool)
  | minimizeOp (loss_op : TExpr) (learning_rate : ℚ) (global_step : TExpr)
  | streamingMeanValue (x : TExpr)
  | streamingMeanUpdate (x : TExpr)
  | placeholderStrings
  | softmaxOp (x : TExpr)
  | argmaxOp (x : TExpr) (dim : ℕ)
deriving DecidableEq

/-- `GraphReferences.__init__`: every field starts at None (resp. the
empty list). -/
structure GraphReferences where
  examples : Option TExpr
  train : Option TExpr
  global_step : Option TExpr
  metric_updates : List TExpr
  metric_values : List TExpr
  keys : Option TExpr
  predictions : List TExpr
deriving DecidableEq

def GraphReferences.init : GraphReferences :=
  ⟨none, none, none, [], [], none, []⟩

/-- Graph-construction part of `training(loss_op, learning_rate)`:
creates the zero-initialized non-trainable `global_step` variable and
the combined minimize op, returning both. -/
def training_nodes (loss_op : TExpr) (learning_rate : ℚ) : TExpr × TExpr :=
  let global_step := TExpr.variableInt 0 "global_step" false
  (TExpr.minimizeOp loss_op learning_rate global_step, global_step)

/-- `Model.build_graph(data_paths, batch_size, is_training)`:
reads a batch (shuffled and unbounded-epoch when training, unshuffled
and 2-epoch when evaluating), parses it, chains inference, loss and
accuracy, then fills the mode-dependent fields.  The two
`tf.scalar_summary` registrations are side effects with no tensor
handle and are not represented. -/
def Model.build_graph (m : Model) (data_paths : List String) (batch_size : ℕ)
    (is_training : Bool) : GraphReferences :=
  let tensors := GraphReferences.init
  let ex := TExpr.readExamplesBatch data_paths batch_size is_training
    (if is_training then none else some 2)
  let images := TExpr.parsedField ex "images"
  let labels := TExpr.parsedField ex "labels"
  let logits := TExpr.inferenceOp images m.hidden1 m.hidden2
  let loss_value := TExpr.lossOp logits labels
  let accuracy_value := TExpr.evaluationOp logits labels
  let tensors := { tensors with examples := some ex }
  let tensors :=
    if is_training then
      let tg := training_nodes loss_value m.learning_rate
      { tensors with train := some tg.1, global_step := some tg.2 }
    else
      { tensors with global_step := some (TExpr.variableInt 0 "global_step" false) }
  { tensors with
      metric_updates := [TExpr.streamingMeanUpdate loss_value,
                         TExpr.streamingMeanUpdate accuracy_value],
      metric_values := [TExpr.streamingMeanValue loss_value,
                        TExpr.streamingMeanValue accuracy_value] }

def Model.build_train_graph (m : Model) (data_paths : List String)
    (batch_size : ℕ) : GraphReferences :=
  m.build_graph data_paths batch_size true

def Model.build_eval_graph (m : Model) (data_paths : List String)
    (batch_size : ℕ) : GraphReferences :=
  m.build_graph data_paths batch_size false

/-- The endpoint registrations of the prediction graph: the flat
string-keyed mappings json-dumped into the `inputs` and `outputs`
collections. -/
structure PredictionEndpoints where
  inputs : List (String × TExpr)
  outputs : List (String × TExpr)
deriving DecidableEq

/-- `Model.build_prediction_graph(export_dir)`: a string placeholder
batch is parsed into `image` and `key` fields, inference runs on the
images, softmax and arg-max (over dimension 1) produce the scores and
the predicted class, and the endpoints are registered.  The Python
method body has no return statement, so beside the registrations it
returns None — modelled as the second component. -/
def Model.build_prediction_graph (m : Model) (_export_dir : String) :
    PredictionEndpoints × Option GraphReferences :=
  let examples := TExpr.placeholderStrings
  let images := TExpr.parsedField examples "image"
  let keys := TExpr.parsedField examples "key"
  let logits := TExpr.inferenceOp images m.hidden1 m.hidden2
  let softmax := TExpr.softmaxOp logits
  let prediction := TExpr.argmaxOp softmax 1
  (⟨[("examples_bytes", examples)],
    [("key", keys), ("prediction", prediction), ("scores", softmax)]⟩,
   none)

/-! ## Formatting helpers

`format_metric_values` and `format_prediction_values` render their
inputs with the C format `%.3f`: value times 1000, rounded to the
nearest integer, printed with exactly three digits after the point.
-/

def pad3 (n : ℕ) : String :=
  if n < 10 then "00" ++ toString n
  else if n < 100 then "0" ++ toString n
  else toString n

def format_fixed3 (q : ℚ) : String :=
  let n := round (q * 1000)
  if n < 0 then "-" ++ toString ((-n) / 1000) ++ "." ++ pad3 ((-n) % 1000).toNat
  else toString (n / 1000) ++ "." ++ pad3 (n % 1000).toNat

def Model.format_metric_values (_m : Model) (metric_values : List ℚ) : String :=
  "loss: " ++ format_fixed3 (metric_values.getD 0 0) ++
    ", accuracy: " ++ format_fixed3 (metric_values.getD 1 0)

def Model.format_prediction_values (_m : Model) (prediction : List ℚ) : String :=
  format_fixed3 (prediction.getD 0 0)

/-! # Theorems -/

/-! ## Helper lemmas -/

theorem zipWith_eq_map_zip {α β γ : Type} (f : α → β → γ) :
    ∀ (as : List α) (bs : List β),
      List.zipWith f as bs = (as.zip bs).map (fun p => f p.1 p.2)
  | [], _ => by simp
  | _ :: _, [] => by simp
  | a :: as, b :: bs => by
    simp [zipWith_eq_map_zip f as bs]

theorem in_top_1_of_uniqueMax {row : List ℚ} {l : ℕ} (h : UniqueMax row l) :
    in_top_1 row l = true := by
  obtain ⟨hl, hmax⟩ := h
  unfold in_top_1
  rw [Bool.and_eq_true]
  refine ⟨by simpa using hl, ?_⟩
  rw [List.all_eq_true]
  intro x hx
  obtain ⟨j, hj, hxj⟩ := List.mem_iff_getElem.mp hx
  subst hxj
  by_cases hjl : j = l
  · subst hjl
    rw [decide_eq_true_eq, List.getD_eq_getElem _ _ hj]
  · have hlt := hmax j hj hjl
    rw [List.getD_eq_getElem _ _ hj] at hlt
    simpa using le_of_lt hlt

theorem in_top_1_false_of_notMax {row : List ℚ} {l : ℕ} (h : NotMax row l) :
    in_top_1 row l = false := by
  obtain ⟨j, hj, hlt⟩ := h
  rw [Bool.eq_false_iff]
  intro hcontra
  unfold in_top_1 at hcontra
  rw [Bool.and_eq_true, List.all_eq_true] at hcontra
  have hmem : row.getD j 0 ∈ row := by
    rw [List.getD_eq_getElem _ _ hj]
    exact List.getElem_mem hj
  have := hcontra.2 _ hmem
  rw [decide_eq_true_eq] at this
  exact absurd this (not_le.mpr hlt)

/-- C1: the claim asserts that the final output layer of `inference`
is a linear affine transform with no activation.  The source builds it
with `layers.fully_connected(hidden2, NUM_CLASSES)` and the framework
default activation is ReLU, so negative affine outputs are clipped to
zero: with one-unit hidden layers, unit first-layer weights, output
weights -1 and biases 0, the image `[1]` produces the all-zero row
where the claimed linear output layer would produce all -1.  The shape
part of the claim does hold at this input: one row of NUM_CLASSES
logits. -/
theorem C1_output_layer_relu_not_linear :
    inference ⟨[[1]], [0]⟩ ⟨[[1]], [0]⟩ ⟨List.replicate 10 [-1], List.replicate 10 0⟩ [[1]]
        = [List.replicate 10 0] ∧
    affine ⟨List.replicate 10 [-1], List.replicate 10 0⟩
        (fully_connected relu ⟨[[1]], [0]⟩ (fully_connected relu ⟨[[1]], [0]⟩ [1]))
        = List.replicate 10 (-1) ∧
    [List.replicate 10 (0 : ℚ)] ≠ [List.replicate 10 (-1 : ℚ)] ∧
    (inference ⟨[[1]], [0]⟩ ⟨[[1]], [0]⟩
        ⟨List.replicate 10 [-1], List.replicate 10 0⟩ [[1]]).length = 1 ∧
    ∀ row ∈ inference ⟨[[1]], [0]⟩ ⟨[[1]], [0]⟩
        ⟨List.replicate 10 [-1], List.replicate 10 0⟩ [[1]],
      row.length = NUM_CLASSES := by
  refine ⟨?_, ?_, by simp, ?_, ?_⟩ <;>
    norm_num [inference, fully_connected, affine, dotprod, relu, List.replicate, NUM_CLASSES]

/-- C6: the global step counter created by `training` starts at 0 and
every invocation of the training op increments it by exactly 1,
whatever the learning rate and the gradients (in particular for
all-zero gradients); after n invocations from the initial state it
equals n, the number of completed invocations. -/
theorem C6_global_step_counts_invocations :
    global_step_init = 0 ∧
    (∀ (lr : ℚ) (grad : List ℚ → List ℚ) (s : TrainState),
        (run_train_op lr grad s).step = s.step + 1) ∧
    (∀ (lr : ℚ) (s : TrainState),
        (run_train_op lr (fun ps => ps.map (fun _ => 0)) s).step = s.step + 1) ∧
    (∀ (lr : ℚ) (grad : List ℚ → List ℚ) (params0 : List ℚ) (n : ℕ),
        ((run_train_op lr grad)^[n] ⟨params0, global_step_init⟩).step = n) := by
  refine ⟨rfl, fun lr grad s => rfl, fun lr s => rfl, fun lr grad params0 n => ?_⟩
  induction n with
  | zero => rfl
  | succ k ih =>
    rw [Function.iterate_succ_apply']
    show ((run_train_op lr grad) _).step = k + 1
    rw [show ∀ t : TrainState, (run_train_op lr grad t).step = t.step + 1 from fun t => rfl, ih]

/-- C7: `build_graph` reads input shuffled with unlimited epochs when
training and unshuffled with exactly 2 epochs when evaluating; in
training mode it fills both the train op and the global step with the
pair built by `training`, in evaluation mode it creates a
non-trainable zero-initialized step counter, no optimizer op, and
leaves the train field at its initial None; in both modes the keys
field stays None and the predictions field stays the empty list. -/
theorem C7_build_graph_modes (m : Model) (data_paths : List String) (batch_size : ℕ) :
    (m.build_graph data_paths batch_size true).examples
        = some (TExpr.readExamplesBatch data_paths batch_size true none) ∧
    (m.build_graph data_paths batch_size false).examples
        = some (TExpr.readExamplesBatch data_paths batch_size false (some 2)) ∧
    (∃ loss_value : TExpr,
        (m.build_graph data_paths batch_size true).train
            = some (training_nodes loss_value m.learning_rate).1 ∧
        (m.build_graph data_paths batch_size true).global_step
            = some (training_nodes loss_value m.learning_rate).2) ∧
    (m.build_graph data_paths batch_size false).train = GraphReferences.init.train ∧
    (m.build_graph data_paths batch_size false).train = none ∧
    (m.build_graph data_paths batch_size false).global_step
        = some (TExpr.variableInt 0 "global_step" false) ∧
    (∀ b : Bool, (m.build_graph data_paths batch_size b).keys = none ∧
        (m.build_graph data_paths batch_size b).predictions = []) := by
  refine ⟨rfl, rfl, ⟨TExpr.lossOp
    (TExpr.inferenceOp
      (TExpr.parsedField
        (TExpr.readExamplesBatch data_paths batch_size true none) "images")
      m.hidden1 m.hidden2)
    (TExpr.parsedField
      (TExpr.readExamplesBatch data_paths batch_size true none) "labels"),
    rfl, rfl⟩, rfl, rfl, rfl, fun b => ?_⟩
  cases b <;> exact ⟨rfl, rfl⟩

/-- C8: `build_prediction_graph` registers exactly one named input
endpoint, mapping "examples_bytes" to the raw serialized-records
placeholder, and exactly three named output endpoints "key",
"prediction" and "scores", bound to the echoed parsed key, the
arg-max class index of the softmax of the inference logits, and the
full softmax score vector. -/
theorem C8_prediction_endpoints (m : Model) (export_dir : String) :
    (m.build_prediction_graph export_dir).1.inputs
        = [("examples_bytes", TExpr.placeholderStrings)] ∧
    (m.build_prediction_graph export_dir).1.outputs
        = [("key", TExpr.parsedField TExpr.placeholderStrings "key"),
           ("prediction", TExpr.argmaxOp (TExpr.softmaxOp
              (TExpr.inferenceOp (TExpr.parsedField TExpr.placeholderStrings "image")
                m.hidden1 m.hidden2)) 1),
           ("scores", TExpr.softmaxOp
              (TExpr.inferenceOp (TExpr.parsedField TExpr.placeholderStrings "image")
                m.hidden1 m.hidden2))] ∧
    (m.build_prediction_graph export_dir).1.inputs.length = 1 ∧
    (m.build_prediction_graph export_dir).1.outputs.length = 3 ∧
    (m.build_prediction_graph export_dir).1.outputs.map Prod.fst
        = ["key", "prediction", "scores"] :=
  ⟨rfl, rfl, rfl, rfl, rfl⟩

/-- C10: `build_prediction_graph` returns no value (its Python body
has no return statement, modelled as the None second component) while
`build_train_graph` and `build_eval_graph` both return the populated
GraphReferences aggregate of `build_graph` for their mode, with the
examples handle filled in. -/
theorem C10_prediction_graph_returns_none (m : Model) (export_dir : String)
    (data_paths : List String) (batch_size : ℕ) :
    (m.build_prediction_graph export_dir).2 = none ∧
    m.build_train_graph data_paths batch_size = m.build_graph data_paths batch_size true ∧
    m.build_eval_graph data_paths batch_size = m.build_graph data_paths batch_size false ∧
    (m.build_train_graph data_paths batch_size).examples.isSome = true ∧
    (m.build_eval_graph data_paths batch_size).examples.isSome = true :=
  ⟨rfl, rfl, rfl, rfl, rfl⟩

/-- C9: `format_metric_values` renders the pair (0.1234, 0.9876) as
"loss: 0.123, accuracy: 0.988" and `format_prediction_values` renders
[3.14159] as "3.142"; in general the rendered value is the input
rounded to the nearest multiple of 1/1000, so it is within 1/2000 of
the input. -/
theorem C9_formatting (m : Model) :
    m.format_metric_values [0.1234, 0.9876] = "loss: 0.123, accuracy: 0.988" ∧
    m.format_prediction_values [3.14159] = "3.142" ∧
    ∀ q : ℚ, |(round (q * 1000) : ℚ) / 1000 - q| ≤ 1 / 2000 := by
  have r1 : round ((0.1234 : ℚ) * 1000) = 123 := by norm_num [round_eq]
  have r2 : round ((0.9876 : ℚ) * 1000) = 988 := by norm_num [round_eq]
  have r3 : round ((3.14159 : ℚ) * 1000) = 3142 := by norm_num [round_eq]
  refine ⟨?_, ?_, fun q => ?_⟩
  · simp only [Model.format_metric_values, format_fixed3, List.getD_cons_zero,
      List.getD_cons_succ]
    rw [r1, r2]
    decide
  · simp only [Model.format_prediction_values, format_fixed3, List.getD_cons_zero]
    rw [r3]
    decide
  · have h := abs_sub_round (q * 1000)
    have h2 : |(round (q * 1000) : ℚ) / 1000 - q|
        = |q * 1000 - (round (q * 1000) : ℚ)| / 1000 := by
      rw [show (round (q * 1000) : ℚ) / 1000 - q
            = -((q * 1000 - (round (q * 1000) : ℚ)) / 1000) by ring, abs_neg, abs_div]
      norm_num
    rw [h2]
    linarith

/-- C2: for a non-empty batch of 10-wide logit rows and labels in
[0,9], `evaluation` returns a value in [0,1]; it returns exactly 1
when every example has its true-label logit as the unique maximum of
its row, and exactly 0 when the true-label logit is never a maximum. -/
theorem C2_evaluation_accuracy (logits : List (List ℚ)) (labels : List ℕ)
    (hne : logits ≠ []) (hlen : logits.length = labels.length)
    (_hrows : ∀ row ∈ logits, row.length = NUM_CLASSES)
    (_hlabels : ∀ l ∈ labels, l < NUM_CLASSES) :
    (0 ≤ evaluation logits labels ∧ evaluation logits labels ≤ 1) ∧
    ((∀ p ∈ logits.zip labels, UniqueMax p.1 p.2) → evaluation logits labels = 1) ∧
    ((∀ p ∈ logits.zip labels, NotMax p.1 p.2) → evaluation logits labels = 0) := by
  have hmap : List.zipWith (fun row l => if in_top_1 row l then (1 : ℚ) else 0) logits labels
      = (logits.zip labels).map (fun p => if in_top_1 p.1 p.2 then (1 : ℚ) else 0) :=
    zipWith_eq_map_zip _ logits labels
  have hunfold : evaluation logits labels
      = (List.zipWith (fun row l => if in_top_1 row l then (1 : ℚ) else 0) logits labels).sum
        / ((List.zipWith (fun row l => if in_top_1 row l then (1 : ℚ) else 0)
              logits labels).length : ℚ) := rfl
  have hlen2 : (List.zipWith (fun row l => if in_top_1 row l then (1 : ℚ) else 0)
      logits labels).length = logits.length := by
    rw [List.length_zipWith, ← hlen, min_self]
  have hnlen : 0 < logits.length := List.length_pos.mpr hne
  have hpos : (0 : ℚ) < ((List.zipWith (fun row l => if in_top_1 row l then (1 : ℚ) else 0)
      logits labels).length : ℚ) := by
    rw [hlen2]
    exact_mod_cast hnlen
  have hmem01 : ∀ x ∈ List.zipWith (fun row l => if in_top_1 row l then (1 : ℚ) else 0)
      logits labels, 0 ≤ x ∧ x ≤ 1 := by
    rw [hmap]
    intro x hx
    obtain ⟨p, _hp, rfl⟩ := List.mem_map.mp hx
    by_cases h : in_top_1 p.1 p.2 <;> simp [h]
  refine ⟨⟨?_, ?_⟩, ?_, ?_⟩
  · rw [hunfold]
    exact div_nonneg (List.sum_nonneg fun x hx => (hmem01 x hx).1) (le_of_lt hpos)
  · rw [hunfold, div_le_one hpos]
    have h := List.sum_le_card_nsmul
      (List.zipWith (fun row l => if in_top_1 row l then (1 : ℚ) else 0) logits labels) 1
      (fun x hx => (hmem01 x hx).2)
    simpa [nsmul_eq_mul] using h
  · intro hall
    have hone : ∀ x ∈ List.zipWith (fun row l => if in_top_1 row l then (1 : ℚ) else 0)
        logits labels, (1 : ℚ) ≤ x := by
      rw [hmap]
      intro x hx
      obtain ⟨p, hp, rfl⟩ := List.mem_map.mp hx
      rw [in_top_1_of_uniqueMax (hall p hp)]
      simp
    have hge := List.card_nsmul_le_sum
      (List.zipWith (fun row l => if in_top_1 row l then (1 : ℚ) else 0) logits labels) 1 hone
    have hle := List.sum_le_card_nsmul
      (List.zipWith (fun row l => if in_top_1 row l then (1 : ℚ) else 0) logits labels) 1
      (fun x hx => (hmem01 x hx).2)
    rw [nsmul_eq_mul, mul_one] at hge hle
    rw [hunfold, le_antisymm hle hge, div_self (ne_of_gt hpos)]
  · intro hall
    have hzero : ∀ x ∈ List.zipWith (fun row l => if in_top_1 row l then (1 : ℚ) else 0)
        logits labels, x = 0 := by
      rw [hmap]
      intro x hx
      obtain ⟨p, hp, rfl⟩ := List.mem_map.mp hx
      rw [in_top_1_false_of_notMax (hall p hp)]
      simp
    rw [hunfold, List.sum_eq_zero hzero, zero_div]

/-- C2 witness: the hypotheses of `C2_evaluation_accuracy` hold at the
single-example batch with logit row [0,...,9] and label 9, whose
true-label logit is the unique maximum, and the accuracy is 1. -/
theorem C2_evaluation_accuracy_witness :
    ([[0, 1, 2, 3, 4, 5, 6, 7, 8, 9]] : List (List ℚ)) ≠ [] ∧
    ([[0, 1, 2, 3, 4, 5, 6, 7, 8, 9]] : List (List ℚ)).length = [9].length ∧
    evaluation [[0, 1, 2, 3, 4, 5, 6, 7, 8, 9]] [9] = 1 := by
  refine ⟨by simp, by simp, ?_⟩
  refine (C2_evaluation_accuracy [[0, 1, 2, 3, 4, 5, 6, 7, 8, 9]] [9]
    (by simp) (by simp) ?_ ?_).2.1 ?_
  · intro row hrow
    rw [List.mem_singleton] at hrow
    subst hrow
    rfl
  · intro l hl
    rw [List.mem_singleton] at hl
    subst hl
    norm_num [NUM_CLASSES]
  · intro p hp
    rw [show ([[0, 1, 2, 3, 4, 5, 6, 7, 8, 9]] : List (List ℚ)).zip [9]
        = [([0, 1, 2, 3, 4, 5, 6, 7, 8, 9], 9)] from rfl, List.mem_singleton] at hp
    subst hp
    refine ⟨by norm_num, ?_⟩
    intro j hj hjne
    have hj10 : j < 10 := by simpa using hj
    interval_cases j
    all_goals first
      | exact absurd rfl hjne
      | norm_num [List.getD]

theorem parse_batch_eq (es : List RawExample)
    (h : ∀ e ∈ es, ∃ img, e.images = some img ∧ img.length = IMAGE_PIXELS) :
    parse_batch es = some (es.map (fun e => (e.images.getD [], e.labels.getD (-1)))) := by
  induction es with
  | nil => rfl
  | cons e t ih =>
    obtain ⟨img, himg, hlen⟩ := h e (List.mem_cons_self e t)
    have ht := ih (fun x hx => h x (List.mem_cons_of_mem e hx))
    rw [parse_batch, ht]
    unfold parse_one
    rw [himg]
    simp [hlen, himg]

/-- C4: on a batch of well-formed encoded records (image field present
with exactly 784 values), `parse_examples` succeeds with exactly the
two named fields: the images, one row of 784 values per record with
each value preserved exactly, and the labels, one per record, the
record label when present and the default -1 when absent. -/
theorem C4_parse_examples_roundtrip (es : List RawExample)
    (h : ∀ e ∈ es, ∃ img, e.images = some img ∧ img.length = IMAGE_PIXELS) :
    parse_examples es
      = some (es.map (fun e => e.images.getD []), es.map (fun e => e.labels.getD (-1))) ∧
    (es.map (fun e => e.images.getD [])).length = es.length ∧
    (es.map (fun e => e.labels.getD (-1))).length = es.length ∧
    (∀ r ∈ es.map (fun e => e.images.getD []), r.length = IMAGE_PIXELS) := by
  refine ⟨?_, by simp, by simp, ?_⟩
  · unfold parse_examples
    rw [parse_batch_eq es h]
    simp
  · intro r hr
    obtain ⟨e, he, rfl⟩ := List.mem_map.mp hr
    obtain ⟨img, himg, hlen⟩ := h e he
    rw [himg]
    exact hlen

/-- C4 witness: a single record with a 784-long image and an absent
labels field parses into that image and the default label -1. -/
theorem C4_parse_examples_roundtrip_witness :
    (∀ e ∈ [RawExample.mk (some (List.replicate 784 (1 : ℚ))) none],
        ∃ img, e.images = some img ∧ img.length = IMAGE_PIXELS) ∧
    parse_examples [RawExample.mk (some (List.replicate 784 (1 : ℚ))) none]
      = some ([List.replicate 784 (1 : ℚ)], [-1]) := by
  have hh : ∀ e ∈ [RawExample.mk (some (List.replicate 784 (1 : ℚ))) none],
      ∃ img, e.images = some img ∧ img.length = IMAGE_PIXELS := by
    intro e he
    rw [List.mem_singleton] at he
    subst he
    exact ⟨List.replicate 784 (1 : ℚ), rfl, by simp [IMAGE_PIXELS, IMAGE_SIZE]⟩
  refine ⟨hh, ?_⟩
  rw [(C4_parse_examples_roundtrip _ hh).1]
  simp

theorem keyPresent_append (f : String) (as bs : List String) :
    keyPresent f (as ++ bs) = (keyPresent f as || keyPresent f bs) := by
  simp [keyPresent, List.any_append]

theorem override_cases (f v : String) (as : List String) :
    override_if_not_in_args f v as = as ∨
      override_if_not_in_args f v as = as ++ [f, v] := by
  unfold override_if_not_in_args
  by_cases h : keyPresent f as <;> simp [h]

theorem override_of_present (f v : String) (as : List String)
    (h : keyPresent f as = true) : override_if_not_in_args f v as = as := by
  unfold override_if_not_in_args
  simp [h]

theorem keyPresent_override_self (f v : String) (as : List String) :
    keyPresent f (override_if_not_in_args f v as) = true := by
  unfold override_if_not_in_args
  by_cases h : keyPresent f as
  · simp [h]
  · rw [if_neg (by simp [h]), keyPresent_append]
    have hfv : keyPresent f [f, v] = true := by simp [keyPresent, matchKey]
    rw [hfv]
    simp

theorem keyPresent_override_mono (g f v : String) (as : List String)
    (h : keyPresent g as = true) :
    keyPresent g (override_if_not_in_args f v as) = true := by
  rcases override_cases f v as with hc | hc <;> rw [hc]
  · exact h
  · rw [keyPresent_append, h]
    rfl

theorem foldl_override_extends (ds : List (String × String)) :
    ∀ as : List String, ∃ extra,
      ds.foldl (fun acc fv => override_if_not_in_args fv.1 fv.2 acc) as = as ++ extra := by
  induction ds with
  | nil => exact fun as => ⟨[], by simp⟩
  | cons g t ih =>
    intro as
    obtain ⟨extra, hex⟩ := ih (override_if_not_in_args g.1 g.2 as)
    rw [List.foldl_cons]
    rcases override_cases g.1 g.2 as with hc | hc
    · rw [hc] at hex
      rw [hc]
      exact ⟨extra, hex⟩
    · rw [hc] at hex
      rw [hc]
      exact ⟨[g.1, g.2] ++ extra, by rw [hex, List.append_assoc]⟩

theorem foldl_keyPresent_mono (ds : List (String × String)) :
    ∀ (as : List String) (g : String), keyPresent g as = true →
      keyPresent g (ds.foldl (fun acc p => override_if_not_in_args p.1 p.2 acc) as) = true := by
  induction ds with
  | nil => intro as g h; simpa using h
  | cons p t ih =>
    intro as g h
    rw [List.foldl_cons]
    exact ih _ g (keyPresent_override_mono g p.1 p.2 as h)

theorem foldl_override_present (ds : List (String × String)) :
    ∀ (as : List String) (fv : String × String), fv ∈ ds →
      keyPresent fv.1 (ds.foldl (fun acc p => override_if_not_in_args p.1 p.2 acc) as)
        = true := by
  induction ds with
  | nil => intro as fv h; simp at h
  | cons g t ih =>
    intro as fv h
    rw [List.foldl_cons]
    rcases List.mem_cons.mp h with rfl | hmem
    · exact foldl_keyPresent_mono t _ fv.1 (keyPresent_override_self fv.1 fv.2 as)
    · exact ih _ fv hmem

theorem foldl_override_filter (ds : List (String × String)) :
    ∀ (as : List String) (g : String), keyPresent g as = true →
      (∀ fv ∈ ds, fv.1 = g ∨ (matchKey g fv.1 = false ∧ matchKey g fv.2 = false)) →
      (ds.foldl (fun acc p => override_if_not_in_args p.1 p.2 acc) as).filter (matchKey g)
        = as.filter (matchKey g) := by
  induction ds with
  | nil => intro as g _ _; simp
  | cons p t ih =>
    intro as g h hside
    rw [List.foldl_cons]
    have hstep_present : keyPresent g (override_if_not_in_args p.1 p.2 as) = true :=
      keyPresent_override_mono g p.1 p.2 as h
    have hstep_filter : (override_if_not_in_args p.1 p.2 as).filter (matchKey g)
        = as.filter (matchKey g) := by
      rcases hside p (List.mem_cons_self p t) with hp | ⟨h1, h2⟩
      · rw [override_of_present p.1 p.2 as (by rw [hp]; exact h)]
      · rcases override_cases p.1 p.2 as with hc | hc
        · rw [hc]
        · rw [hc, List.filter_append]
          have hnil : List.filter (matchKey g) [p.1, p.2] = [] := by
            simp [List.filter, h1, h2]
          rw [hnil, List.append_nil]
    rw [ih _ g hstep_present (fun fv hfv => hside fv (List.mem_cons_of_mem p hfv)),
      hstep_filter]

theorem default_args_pairwise :
    ∀ g ∈ default_args, ∀ fv ∈ default_args,
      fv.1 = g.1 ∨ (matchKey g.1 fv.1 = false ∧ matchKey g.1 fv.2 = false) := by
  decide

/-- C5: whenever `create_model` succeeds it returns a Model with
hidden widths 128 and 32 whose learning rate is the value of the
parsed `--learning_rate` option (default 0.01 when absent), together
with the residual unrecognized arguments extended, in place, by the
six harness defaults — after the injection every one of the six keys
is present, and for any of the six keys already present among the
residual caller arguments the key-matching entries are left exactly as
the caller supplied them (the default is not injected), so a
caller-supplied value is never replaced. -/
theorem C5_create_model_factory (argv : List String) (m : Model) (rest : List String)
    (h : create_model argv = some (m, rest)) :
    m.hidden1 = HIDDEN1 ∧ m.hidden2 = HIDDEN2 ∧
    ∀ lrOpt residual, parse_known_args argv = some (lrOpt, residual) →
      m.learning_rate = lrOpt.getD (1 / 100) ∧
      (∃ extra, rest = residual ++ extra) ∧
      (∀ fv ∈ default_args, keyPresent fv.1 rest = true) ∧
      (∀ fv ∈ default_args, keyPresent fv.1 residual = true →
        rest.filter (matchKey fv.1) = residual.filter (matchKey fv.1)) := by
  unfold create_model at h
  cases hp : parse_known_args argv with
  | none =>
    rw [hp] at h
    exact absurd h (by simp)
  | some pr =>
    obtain ⟨lrOpt0, residual0⟩ := pr
    rw [hp] at h
    simp only [Option.some.injEq, Prod.mk.injEq] at h
    obtain ⟨hm, hrest⟩ := h
    refine ⟨by rw [← hm], by rw [← hm], ?_⟩
    intro lrOpt residual hpr
    rw [Option.some.injEq, Prod.mk.injEq] at hpr
    obtain ⟨hl0, hr0⟩ := hpr
    subst hl0
    subst hr0
    refine ⟨by rw [← hm], ?_, ?_, ?_⟩
    · obtain ⟨extra, hex⟩ := foldl_override_extends default_args residual0
      exact ⟨extra, by rw [← hrest]; exact hex⟩
    · intro fv hfv
      rw [← hrest]
      exact foldl_override_present default_args residual0 fv hfv
    · intro fv hfv hpres
      rw [← hrest]
      exact foldl_override_filter default_args residual0 fv.1 hpres
        (default_args_pairwise fv hfv)

/-- C5 witness: on the argument list ["--batch_size=50"] the factory
succeeds with the default learning rate 0.01 and widths 128/32, the
batch-size default is not injected (the caller value 50 stays the only
batch-size entry), and the other five defaults are appended. -/
theorem C5_create_model_factory_witness :
    create_model ["--batch_size=50"]
        = some (⟨1 / 100, HIDDEN1, HIDDEN2⟩,
            ["--batch_size=50", "--max_steps", "5000", "--eval_set_size", "10000",
             "--eval_interval_secs", "1", "--log_interval_secs", "1",
             "--min_train_eval_rate", "1"]) ∧
    List.filter (matchKey "--batch_size")
        ["--batch_size=50", "--max_steps", "5000", "--eval_set_size", "10000",
         "--eval_interval_secs", "1", "--log_interval_secs", "1",
         "--min_train_eval_rate", "1"]
      = List.filter (matchKey "--batch_size") ["--batch_size=50"] := by
  have hcm : create_model ["--batch_size=50"]
      = some (⟨1 / 100, HIDDEN1, HIDDEN2⟩,
          ["--batch_size=50", "--max_steps", "5000", "--eval_set_size", "10000",
           "--eval_interval_secs", "1", "--log_interval_secs", "1",
           "--min_train_eval_rate", "1"]) := by rfl
  refine ⟨hcm, ?_⟩
  exact ((C5_create_model_factory _ _ _ hcm).2.2 none ["--batch_size=50"] rfl).2.2.2
    ("--batch_size", "100") (by decide) (by decide)

theorem softmaxDenom_pos {row : List ℝ} (h : row ≠ []) : 0 < softmaxDenom row := by
  cases row with
  | nil => exact absurd rfl h
  | cons a t =>
    unfold softmaxDenom
    rw [List.map_cons, List.sum_cons]
    have h1 : 0 < Real.exp a := Real.exp_pos a
    have h2 : 0 ≤ (t.map Real.exp).sum := by
      apply List.sum_nonneg
      intro x hx
      obtain ⟨y, _, rfl⟩ := List.mem_map.mp hx
      exact le_of_lt (Real.exp_pos y)
    linarith

theorem exp_getD_le_denom {row : List ℝ} {l : ℕ} (h : l < row.length) :
    Real.exp (row.getD l 0) ≤ softmaxDenom row := by
  have hmem : row.getD l 0 ∈ row := by
    rw [List.getD_eq_getElem _ _ h]
    exact List.getElem_mem h
  have hmem2 : Real.exp (row.getD l 0) ∈ row.map Real.exp :=
    List.mem_map_of_mem _ hmem
  refine List.single_le_sum ?_ _ hmem2
  intro x hx
  obtain ⟨y, _, rfl⟩ := List.mem_map.mp hx
  exact le_of_lt (Real.exp_pos y)

theorem xent_nonneg {row : List ℝ} {l : ℕ} (h : l < row.length) : 0 ≤ xent row l := by
  unfold xent
  have hne : row ≠ [] := List.ne_nil_of_length_pos (Nat.lt_of_le_of_lt (Nat.zero_le l) h)
  have hlog := Real.log_le_log (Real.exp_pos (row.getD l 0)) (exp_getD_le_denom h)
  rw [Real.log_exp] at hlog
  linarith

theorem xent_eq_neg_log {row : List ℝ} (l : ℕ) (h : row ≠ []) :
    xent row l = -Real.log (softmaxProb row l) := by
  unfold xent softmaxProb
  rw [Real.log_div (Real.exp_ne_zero _) (ne_of_gt (softmaxDenom_pos h)), Real.log_exp]
  ring

theorem xent_le_of_prob {row : List ℝ} {l : ℕ} {eps : ℝ} (h : row ≠ [])
    (hp : Real.exp (-eps) ≤ softmaxProb row l) : xent row l ≤ eps := by
  rw [xent_eq_neg_log l h]
  have hlog := Real.log_le_log (Real.exp_pos (-eps)) hp
  rw [Real.log_exp] at hlog
  linarith

theorem to_int64_id {n : ℤ} (h0 : 0 ≤ n) (h1 : n < 10) : to_int64 n = n := by
  unfold to_int64
  have e63 : (2 : ℤ) ^ 63 = 9223372036854775808 := by norm_num
  have e64 : (2 : ℤ) ^ 64 = 18446744073709551616 := by norm_num
  omega

/-- C3: under valid labels, `loss` is the batch mean of the
per-example sparse categorical cross-entropy, the negative logarithm
of the softmax probability assigned to the (64-bit-cast) true label;
it is non-negative, and it is at most eps as soon as every example
assigns its true class a softmax probability of at least exp(-eps) —
so it tends to 0 as those probabilities tend to 1. -/
theorem C3_loss_mean_cross_entropy (logits : List (List ℝ)) (labels : List ℤ)
    (hne : logits ≠ []) (hlen : logits.length = labels.length)
    (hvalid : ∀ p ∈ logits.zip labels, 0 ≤ p.2 ∧ p.2 < 10 ∧ p.1.length = NUM_CLASSES) :
    loss logits labels
        = ((logits.zip labels).map
            (fun p => -Real.log (softmaxProb p.1 p.2.toNat))).sum / (logits.length : ℝ) ∧
    0 ≤ loss logits labels ∧
    (∀ eps : ℝ, 0 < eps →
      (∀ p ∈ logits.zip labels, Real.exp (-eps) ≤ softmaxProb p.1 p.2.toNat) →
      loss logits labels ≤ eps) := by
  have hmap : List.zipWith (fun row l => xent row (to_int64 l).toNat) logits labels
      = (logits.zip labels).map (fun p => xent p.1 (to_int64 p.2).toNat) :=
    zipWith_eq_map_zip _ logits labels
  have hp64 : ∀ p ∈ logits.zip labels, (to_int64 p.2).toNat = p.2.toNat := by
    intro p hp
    obtain ⟨hp0, hp1, _⟩ := hvalid p hp
    rw [to_int64_id hp0 hp1]
  have hrowne : ∀ p ∈ logits.zip labels, p.1 ≠ [] := by
    intro p hp
    obtain ⟨_, _, hplen⟩ := hvalid p hp
    intro hcon
    rw [hcon] at hplen
    exact absurd hplen.symm (by norm_num [NUM_CLASSES])
  have hidx : ∀ p ∈ logits.zip labels, p.2.toNat < p.1.length := by
    intro p hp
    obtain ⟨hp0, hp1, hplen⟩ := hvalid p hp
    rw [hplen]
    show p.2.toNat < NUM_CLASSES
    have : (p.2.toNat : ℤ) < 10 := by rwa [Int.toNat_of_nonneg hp0]
    exact_mod_cast this
  have hcongr : (logits.zip labels).map (fun p => xent p.1 (to_int64 p.2).toNat)
      = (logits.zip labels).map (fun p => -Real.log (softmaxProb p.1 p.2.toNat)) := by
    apply List.map_congr_left
    intro p hp
    rw [hp64 p hp, xent_eq_neg_log _ (hrowne p hp)]
  have hlen2 : (List.zipWith (fun row l => xent row (to_int64 l).toNat) logits labels).length
      = logits.length := by
    rw [List.length_zipWith, ← hlen, min_self]
  have hunfold : loss logits labels
      = (List.zipWith (fun row l => xent row (to_int64 l).toNat) logits labels).sum
        / ((List.zipWith (fun row l => xent row (to_int64 l).toNat) logits labels).length : ℝ) :=
    rfl
  have hnlen : 0 < logits.length := List.length_pos.mpr hne
  have hposlen : (0 : ℝ) < ((List.zipWith (fun row l => xent row (to_int64 l).toNat)
      logits labels).length : ℝ) := by
    rw [hlen2]
    exact_mod_cast hnlen
  have hnn : ∀ x ∈ List.zipWith (fun row l => xent row (to_int64 l).toNat) logits labels,
      0 ≤ x := by
    rw [hmap]
    intro x hx
    obtain ⟨p, hp, rfl⟩ := List.mem_map.mp hx
    rw [hp64 p hp]
    exact xent_nonneg (hidx p hp)
  refine ⟨?_, ?_, ?_⟩
  · rw [hunfold, hlen2, hmap, hcongr]
  · rw [hunfold]
    exact div_nonneg (List.sum_nonneg hnn) (le_of_lt hposlen)
  · intro eps _heps hprob
    have hle : ∀ x ∈ List.zipWith (fun row l => xent row (to_int64 l).toNat) logits labels,
        x ≤ eps := by
      rw [hmap]
      intro x hx
      obtain ⟨p, hp, rfl⟩ := List.mem_map.mp hx
      rw [hp64 p hp]
      exact xent_le_of_prob (hrowne p hp) (hprob p hp)
    have hsum := List.sum_le_card_nsmul
      (List.zipWith (fun row l => xent row (to_int64 l).toNat) logits labels) eps hle
    rw [nsmul_eq_mul] at hsum
    rw [hunfold, div_le_iff₀ hposlen]
    linarith

/-- C3 witness: the hypotheses of `C3_loss_mean_cross_entropy` hold at
the single-example batch with the all-zero 10-wide logit row and label
0, where the loss is non-negative. -/
theorem C3_loss_mean_cross_entropy_witness :
    ([List.replicate 10 (0 : ℝ)] : List (List ℝ)) ≠ [] ∧
    ([List.replicate 10 (0 : ℝ)] : List (List ℝ)).length = ([0] : List ℤ).length ∧
    0 ≤ loss [List.replicate 10 (0 : ℝ)] [0] := by
  refine ⟨by simp, by simp, ?_⟩
  refine (C3_loss_mean_cross_entropy [List.replicate 10 (0 : ℝ)] [0]
    (by simp) (by simp) ?_).2.1
  intro p hp
  rw [show ([List.replicate 10 (0 : ℝ)] : List (List ℝ)).zip ([0] : List ℤ)
      = [(List.replicate 10 (0 : ℝ), (0 : ℤ))] from rfl, List.mem_singleton] at hp
  subst hp
  exact ⟨le_refl 0, by norm_num, by simp [NUM_CLASSES]⟩
